import Mathlib

/-!
# Verification of the own-game trivia state machine (`game.py`)

Shallow embedding of the core game state machine of the repository:
`Player`, `Question`, and `Game` with its operations `join`, `leave`,
`select_question`, `select_answering_player`, `accept_answer`,
`decline_answer`, `skip_question` and the derived query `is_over`.

Modelling choices, each justified by the Python semantics:

* Python compares `Player` objects by identity (no `__eq__` is defined) and
  `answering_player` holds an object reference.  We give each player a
  numeric `id` issued from a `nextId` counter in the game: identical ids
  model the identical object.  `join` always constructs a brand-new object,
  modelled by handing out the fresh `nextId`.
* The board `themes_questions` is a Python `dict` from theme name to a list
  of mutable `Question` objects, and `current_question` aliases one of those
  objects.  We model the board as an insertion-ordered association list and
  `current_question` as an optional index pair (theme position, question
  position); mutations of the current question go through that reference.
* Every method mutates `self` in place and signals failure by raising; each
  raise in `game.py` happens before any mutation of that call.  We embed each
  method as a function `Game → Game × Option GErr` returning the state as it
  is when the method returns or raises, so that "no partial mutation on
  failure" is a provable statement about the embedding.
* Python truthiness: `Question` and `Player` objects are always truthy, so
  `if not self.current_question` and `if not self.current_question.answering_player`
  are `None` tests; `if not theme_questions` is true for `None` and for `[]`.
-/

namespace OwnGame

/-- Class `Player` from `game.py`: name and cumulative score.  The `id` field
models Python object identity (see module docstring). -/
structure Player where
  id : Nat
  name : String
  score : Int
deriving DecidableEq

/-- Class `Question` from `game.py`.  `answeringPlayer` stores the id of the
referenced player object (`None` ↦ `none`). -/
structure Question where
  text : String
  answer : String
  score : Int
  disabled : Bool
  answeringPlayer : Option Nat
deriving DecidableEq

/-- Type alias `GameThemes = Dict[Theme, List[Question]]`, as an insertion-ordered
association list. -/
abbrev Board := List (String × List Question)

/-- The failure conditions raised by `Game` methods in `game.py`. -/
inductive GErr where
  | ThemeNotFound (theme : String)
  | QuestionNotFound (theme : String) (score : Int)
  | QuestionDisabled (question : Question)
  | QuestionIsAlreadySelected
  | QuestionIsNotSelected
  | PlayerIsNotSelected
  | PlayerIsAlreadySelected (selecting_player : Nat)
deriving DecidableEq

/-- Class `Game` state: roster, board, current-question reference, plus the
id counter that models object identity of players. -/
structure Game where
  players : List Player
  themes_questions : Board
  current_question : Option (Nat × Nat)
  nextId : Nat
deriving DecidableEq

/-- Constructor `Game.__init__`: empty roster, no current question; the board is
populated once at creation from external theme data (`app.py`). -/
def Game.fresh (board : Board) : Game :=
  { players := [], themes_questions := board, current_question := none, nextId := 0 }

/-- Replace the element at index `i` by its image under `f` (no-op when out
of range); models in-place mutation of a list element. -/
def modifyIdx {α : Type} (f : α → α) : Nat → List α → List α
  | _, [] => []
  | 0, x :: xs => f x :: xs
  | n + 1, x :: xs => x :: modifyIdx f n xs

/-- Read the question referenced by an index pair. -/
def getQ (b : Board) (r : Nat × Nat) : Option Question :=
  match b[r.1]? with
  | none => none
  | some tq => tq.2[r.2]?

/-- Mutate the question referenced by an index pair. -/
def modQ (b : Board) (r : Nat × Nat) (f : Question → Question) : Board :=
  modifyIdx (fun tq => (tq.1, modifyIdx f r.2 tq.2)) r.1 b

/-- Lookup `dict.get(theme)`: the question list of the first (in a real dict:
only) entry named `theme`, together with its position. -/
def findTheme : Board → String → Option (Nat × List Question)
  | [], _ => none
  | tq :: rest, theme =>
    if tq.1 = theme then some (0, tq.2)
    else (findTheme rest theme).map (fun p => (p.1 + 1, p.2))

/-- The `for question in theme_questions` scan of `select_question`: the
first question whose score matches, with its position. -/
def findQuestion : List Question → Int → Option (Nat × Question)
  | [], _ => none
  | q :: qs, score =>
    if q.score = score then some (0, q)
    else (findQuestion qs score).map (fun p => (p.1 + 1, p.2))

/-- Method `Game.join`: create a new player with score 0, append it to `players`,
return it. -/
def Game.join (g : Game) (player_name : String) : Game × Player :=
  let player : Player := { id := g.nextId, name := player_name, score := 0 }
  ({ g with players := g.players ++ [player], nextId := g.nextId + 1 }, player)

/-- Removal `list.remove`: delete the first element equal (identical) to the given
player. -/
def removeFirst (pid : Nat) : List Player → List Player
  | [] => []
  | p :: ps => if p.id = pid then ps else p :: removeFirst pid ps

/-- Method `Game.leave`: `self.players.remove(player)`. -/
def Game.leave (g : Game) (pid : Nat) : Game :=
  { g with players := removeFirst pid g.players }

/-- Method `Game.select_question`. -/
def Game.select_question (g : Game) (theme : String) (score : Int) :
    Game × Option GErr :=
  if g.current_question.isSome then
    (g, some GErr.QuestionIsAlreadySelected)
  else
    match findTheme g.themes_questions theme with
    | none => (g, some (GErr.ThemeNotFound theme))
    | some (i, qs) =>
      if qs.isEmpty then (g, some (GErr.ThemeNotFound theme))
      else
        match findQuestion qs score with
        | none => (g, some (GErr.QuestionNotFound theme score))
        | some (j, q) =>
          if q.disabled then (g, some (GErr.QuestionDisabled q))
          else ({ g with current_question := some (i, j) }, none)

/-- Method `Game.select_answering_player`.  The inner `none` branch (a dangling
current-question reference) cannot arise in Python, where
`current_question` is the question object itself; it is unreachable in any
state built through the API. -/
def Game.select_answering_player (g : Game) (pid : Nat) : Game × Option GErr :=
  match g.current_question with
  | none => (g, some GErr.QuestionIsNotSelected)
  | some r =>
    match getQ g.themes_questions r with
    | none => (g, some GErr.QuestionIsNotSelected)
    | some q =>
      let b2 := modQ g.themes_questions r (fun q0 => { q0 with answeringPlayer := some pid })
      match q.answeringPlayer with
      | some apid =>
        if apid ≠ pid then (g, some (GErr.PlayerIsAlreadySelected pid))
        else ({ g with themes_questions := b2 }, none)
      | none =>
        ({ g with themes_questions := b2 }, none)

/-- Method `Game.accept_answer`, inlining `Question.accept_answer`:
`answering_player.score += score; answering_player = None; disabled = True`,
then `current_question = None`. -/
def Game.accept_answer (g : Game) : Game × Option GErr :=
  match g.current_question with
  | none => (g, some GErr.QuestionIsNotSelected)
  | some r =>
    match getQ g.themes_questions r with
    | none => (g, some GErr.QuestionIsNotSelected)
    | some q =>
      match q.answeringPlayer with
      | none => (g, some GErr.PlayerIsNotSelected)
      | some pid =>
        let ps2 := g.players.map (fun p => if p.id = pid then { p with score := p.score + q.score } else p)
        let b2 := modQ g.themes_questions r (fun q0 => { q0 with answeringPlayer := none, disabled := true })
        ({ g with players := ps2, themes_questions := b2, current_question := none }, none)

/-- Method `Game.decline_answer`, inlining `Question.decline_answer`:
`answering_player.score -= score; answering_player = None`; neither
`disabled` nor `current_question` is touched. -/
def Game.decline_answer (g : Game) : Game × Option GErr :=
  match g.current_question with
  | none => (g, some GErr.QuestionIsNotSelected)
  | some r =>
    match getQ g.themes_questions r with
    | none => (g, some GErr.QuestionIsNotSelected)
    | some q =>
      match q.answeringPlayer with
      | none => (g, some GErr.PlayerIsNotSelected)
      | some pid =>
        let ps2 := g.players.map (fun p => if p.id = pid then { p with score := p.score - q.score } else p)
        let b2 := modQ g.themes_questions r (fun q0 => { q0 with answeringPlayer := none })
        ({ g with players := ps2, themes_questions := b2 }, none)

/-- Method `Game.skip_question`: `current_question.disabled = True;
current_question = None`; the answering player is not touched. -/
def Game.skip_question (g : Game) : Game × Option GErr :=
  match g.current_question with
  | none => (g, some GErr.QuestionIsNotSelected)
  | some r =>
    let b2 := modQ g.themes_questions r (fun q0 => { q0 with disabled := true })
    ({ g with themes_questions := b2, current_question := none }, none)

/-- Query `Game.is_over`: true iff every question of every theme is disabled. -/
def Game.is_over (g : Game) : Bool :=
  g.themes_questions.all (fun tq => tq.2.all (fun q => q.disabled))

/-!
## Traces

The transport layer (`app.py`) dispatches each incoming action to the
corresponding `Game` method, discards the raised condition (the state is
whatever the method left behind) and continues.  `Op` is one transport
action; `applyOp` is the resulting state.
-/

/-- A transport-level action on one game. -/
inductive Op where
  | join (player_name : String)
  | leave (pid : Nat)
  | selectQuestion (theme : String) (score : Int)
  | selectAnsweringPlayer (pid : Nat)
  | acceptAnswer
  | declineAnswer
  | skipQuestion
deriving DecidableEq

/-- The state after one transport action (raised conditions are reported to
the caller and leave the state as the method left it). -/
def applyOp (g : Game) : Op → Game
  | Op.join n => (g.join n).1
  | Op.leave pid => g.leave pid
  | Op.selectQuestion t s => (g.select_question t s).1
  | Op.selectAnsweringPlayer pid => (g.select_answering_player pid).1
  | Op.acceptAnswer => g.accept_answer.1
  | Op.declineAnswer => g.decline_answer.1
  | Op.skipQuestion => g.skip_question.1

/-- Run a sequence of transport actions. -/
def runTrace : Game → List Op → Game
  | g, [] => g
  | g, op :: ops => runTrace (applyOp g op) ops

/-- Is `pid` the id of a player currently in the roster? -/
def rosterHas (g : Game) (pid : Nat) : Bool :=
  g.players.any (fun p => p.id == pid)

/-- The transport layer's membership guards (`joined_player_only` in
`app.py`): `leave` and `select_answering_player` are only ever invoked with
a player looked up in the game's key map, i.e. a current roster member. -/
def transportOk (g : Game) : Op → Bool
  | Op.leave pid => rosterHas g pid
  | Op.selectAnsweringPlayer pid => rosterHas g pid
  | _ => true

/-- Every action of the trace satisfies the transport guards in the state
where it runs. -/
def transportTrace : Game → List Op → Bool
  | _, [] => true
  | g, op :: ops => transportOk g op && transportTrace (applyOp g op) ops

/-- The answering player of the current question, when both exist. -/
def currentAp (g : Game) : Option Nat :=
  match g.current_question with
  | none => none
  | some r =>
    match getQ g.themes_questions r with
    | none => none
    | some q => q.answeringPlayer

/-- The action does not remove the player currently set as the answering
player of the current question. -/
def safeLeave (g : Game) : Op → Bool
  | Op.leave pid => decide (currentAp g ≠ some pid)
  | _ => true

/-- Trace validity for the amended roster invariant: transport guards hold
and the answering player never leaves while selected. -/
def okTrace : Game → List Op → Bool
  | _, [] => true
  | g, op :: ops => (transportOk g op && safeLeave g op) && okTrace (applyOp g op) ops

/-- The roster invariant claimed by the spec: the current question's
answering player, when set, is a current roster member. -/
def apInRoster (g : Game) : Bool :=
  match currentAp g with
  | none => true
  | some pid => rosterHas g pid

/-- The current question, when its reference resolves, is enabled. -/
def currentEnabled (g : Game) : Bool :=
  match g.current_question with
  | none => true
  | some r =>
    match getQ g.themes_questions r with
    | none => true
    | some q => !q.disabled

/-- Auxiliary invariant: every enabled question other than the current one
has no answering player (an answering player is only ever set on the
current question, and is cleared—or the question disabled—before the
current-question focus moves away). -/
def NonCurrentClean (g : Game) : Prop :=
  ∀ r q, getQ g.themes_questions r = some q → q.disabled = false →
    g.current_question ≠ some r → q.answeringPlayer = none

/-- The inductive invariant used to prove the (amended) roster claim. -/
def Inv (g : Game) : Prop := apInRoster g = true ∧ NonCurrentClean g

/-!
## Concrete fixtures

A small board and the games reached from it, used to witness the theorems
below on concrete inputs.
-/

/-- A question worth 100 points. -/
def q100 : Question :=
  { text := "Q1", answer := "A1", score := 100, disabled := false, answeringPlayer := none }

/-- A question worth 200 points. -/
def q200 : Question :=
  { text := "Q2", answer := "A2", score := 200, disabled := false, answeringPlayer := none }

/-- A one-theme board with two questions. -/
def board0 : Board := [("T", [q100, q200])]

/-- A fresh game over `board0`. -/
def g0 : Game := Game.fresh board0

/-- One player (id 0) has joined. -/
def gJ : Game := applyOp g0 (Op.join "alice")

/-- The 100-point question is selected. -/
def gSel : Game := applyOp gJ (Op.selectQuestion "T" 100)

/-- Player 0 is set as the answering player. -/
def gAp : Game := applyOp gSel (Op.selectAnsweringPlayer 0)

/-!
## Access lemmas for the board
-/

theorem modifyIdx_getElem? {α : Type} (f : α → α) (i j : Nat) (l : List α) :
    (modifyIdx f i l)[j]? = if i = j then (l[j]?).map f else l[j]? := by
  induction l generalizing i j with
  | nil => simp [modifyIdx]
  | cons x xs ih =>
    cases i with
    | zero =>
      cases j with
      | zero => simp [modifyIdx]
      | succ m => simp [modifyIdx]
    | succ n =>
      cases j with
      | zero => simp [modifyIdx]
      | succ m => simpa [modifyIdx, Nat.succ_inj] using ih n m

theorem modifyIdx_eq_self {α : Type} (f : α → α) (i : Nat) (l : List α)
    (h : ∀ x, l[i]? = some x → f x = x) : modifyIdx f i l = l := by
  induction l generalizing i with
  | nil => simp [modifyIdx]
  | cons x xs ih =>
    cases i with
    | zero => simp [modifyIdx, h x (by simp)]
    | succ n =>
      simp only [modifyIdx, List.cons.injEq, true_and]
      exact ih n (fun y hy => h y (by simpa using hy))

theorem getQ_modQ_self (b : Board) (r : Nat × Nat) (f : Question → Question) :
    getQ (modQ b r f) r = (getQ b r).map f := by
  unfold getQ modQ
  rw [modifyIdx_getElem?, if_pos rfl]
  cases hb : b[r.1]? with
  | none => simp
  | some tq => simp [modifyIdx_getElem?]

theorem getQ_modQ_ne (b : Board) (r r' : Nat × Nat) (f : Question → Question)
    (h : r' ≠ r) : getQ (modQ b r f) r' = getQ b r' := by
  unfold getQ modQ
  rw [modifyIdx_getElem?]
  by_cases h1 : r.1 = r'.1
  · rw [if_pos h1]
    have h2 : r.2 ≠ r'.2 := by
      intro h2
      exact h (Prod.ext_iff.mpr ⟨h1.symm, h2.symm⟩)
    cases hb : b[r'.1]? with
    | none => simp
    | some tq => simp [modifyIdx_getElem?, if_neg h2]
  · rw [if_neg h1]

theorem modQ_eq_self (b : Board) (r : Nat × Nat) (f : Question → Question)
    (h : ∀ q, getQ b r = some q → f q = q) : modQ b r f = b := by
  unfold modQ
  apply modifyIdx_eq_self
  intro tq htq
  have hin : modifyIdx f r.2 tq.2 = tq.2 := by
    apply modifyIdx_eq_self
    intro q hq
    apply h
    unfold getQ
    rw [htq]
    exact hq
  rw [hin]

/-!
## Lookup lemmas: `dict.get` and the first-matching-score scan
-/

theorem findTheme_getElem? (b : Board) (t : String) (i : Nat) (qs : List Question)
    (h : findTheme b t = some (i, qs)) : b[i]? = some (t, qs) := by
  induction b generalizing i with
  | nil => simp [findTheme] at h
  | cons tq rest ih =>
    by_cases h1 : tq.1 = t
    · simp only [findTheme, if_pos h1, Option.some.injEq, Prod.mk.injEq] at h
      obtain ⟨hi, hqs⟩ := h
      subst hi
      simp [Prod.ext_iff, h1, hqs]
    · simp only [findTheme, if_neg h1] at h
      cases hrest : findTheme rest t with
      | none => rw [hrest] at h; simp at h
      | some p =>
        rw [hrest] at h
        simp only [Option.map_some', Option.some.injEq, Prod.mk.injEq] at h
        obtain ⟨hi, hqs⟩ := h
        subst hqs
        cases i with
        | zero => omega
        | succ m =>
          have : p.1 = m := by omega
          simp only [List.getElem?_cons_succ]
          exact ih m (by rw [hrest, ← this])

theorem findTheme_eq_none (b : Board) (t : String)
    (h : ∀ tq ∈ b, tq.1 ≠ t) : findTheme b t = none := by
  induction b with
  | nil => rfl
  | cons tq rest ih =>
    have h1 : tq.1 ≠ t := h tq (List.mem_cons_self tq rest)
    have hr : findTheme rest t = none := ih (fun x hx => h x (List.mem_cons_of_mem tq hx))
    simp [findTheme, if_neg h1, hr]

theorem findQuestion_getElem? (qs : List Question) (s : Int) (j : Nat) (q : Question)
    (h : findQuestion qs s = some (j, q)) : qs[j]? = some q ∧ q.score = s := by
  induction qs generalizing j with
  | nil => simp [findQuestion] at h
  | cons q0 rest ih =>
    by_cases h1 : q0.score = s
    · simp only [findQuestion, if_pos h1, Option.some.injEq, Prod.mk.injEq] at h
      obtain ⟨hj, hq⟩ := h
      subst hj
      subst hq
      simp [h1]
    · simp only [findQuestion, if_neg h1] at h
      cases hrest : findQuestion rest s with
      | none => rw [hrest] at h; simp at h
      | some p =>
        rw [hrest] at h
        simp only [Option.map_some', Option.some.injEq, Prod.mk.injEq] at h
        obtain ⟨hj, hq⟩ := h
        subst hq
        cases j with
        | zero => omega
        | succ m =>
          have : p.1 = m := by omega
          simp only [List.getElem?_cons_succ]
          exact ih m (by rw [hrest, ← this])

theorem findQuestion_eq_some (qs : List Question) (s : Int) :
    ∀ (j : Nat) (q : Question), qs[j]? = some q → q.score = s →
    (∀ (k : Nat) (qk : Question), k < j → qs[k]? = some qk → qk.score ≠ s) →
    findQuestion qs s = some (j, q) := by
  induction qs with
  | nil => intro j q hj _ _; simp at hj
  | cons q0 rest ih =>
    intro j q hj hs hfirst
    cases j with
    | zero =>
      simp only [List.getElem?_cons_zero, Option.some.injEq] at hj
      subst hj
      simp [findQuestion, hs]
    | succ m =>
      have h0 : q0.score ≠ s := hfirst 0 q0 (Nat.succ_pos m) (by simp)
      simp only [findQuestion, if_neg h0]
      rw [ih m q (by simpa using hj)
        hs
        (fun k qk hk hget => hfirst (k + 1) qk (by omega) (by simpa using hget))]
      rfl

theorem findQuestion_eq_none (qs : List Question) (s : Int) :
    (∀ (k : Nat) (qk : Question), qs[k]? = some qk → qk.score ≠ s) →
    findQuestion qs s = none := by
  induction qs with
  | nil => intro _; rfl
  | cons q0 rest ih =>
    intro h
    have h0 : q0.score ≠ s := h 0 q0 (by simp)
    have hr : findQuestion rest s = none :=
      ih (fun k qk hk => h (k + 1) qk (by simpa using hk))
    simp [findQuestion, if_neg h0, hr]

/-!
## Roster lemmas
-/

theorem mem_removeFirst_of_ne {l : List Player} {p : Player} {pid : Nat}
    (hp : p ∈ l) (hne : p.id ≠ pid) : p ∈ removeFirst pid l := by
  induction l with
  | nil => simp at hp
  | cons x xs ih =>
    by_cases hx : x.id = pid
    · simp only [removeFirst, if_pos hx]
      rcases List.mem_cons.mp hp with h | h
      · exact absurd (h ▸ hx) hne
      · exact h
    · simp only [removeFirst, if_neg hx]
      rcases List.mem_cons.mp hp with h | h
      · exact h ▸ List.mem_cons_self x (removeFirst pid xs)
      · exact List.mem_cons_of_mem x (ih h)

theorem removeFirst_append_fresh (l : List Player) (p : Player)
    (h : ∀ x ∈ l, x.id ≠ p.id) : removeFirst p.id (l ++ [p]) = l := by
  induction l with
  | nil => simp [removeFirst]
  | cons x xs ih =>
    have hx : x.id ≠ p.id := h x (List.mem_cons_self x xs)
    simp only [List.cons_append, removeFirst, if_neg hx, List.cons.injEq, true_and]
    exact ih (fun y hy => h y (List.mem_cons_of_mem x hy))

/-!
## Shape of each operation's result

Each operation either leaves the state unchanged (all failure branches) or
produces the one successful mutation; these lemmas enumerate the shapes.
-/

theorem select_question_cases (g : Game) (t : String) (s : Int) :
    (g.select_question t s).1 = g ∨
    ∃ i qs j q, g.current_question = none ∧
      findTheme g.themes_questions t = some (i, qs) ∧
      findQuestion qs s = some (j, q) ∧ q.disabled = false ∧
      (g.select_question t s).1 = { g with current_question := some (i, j) } := by
  unfold Game.select_question
  split
  · left; rfl
  next hc =>
    split
    · left; rfl
    next i qs hft =>
      split
      · left; rfl
      next he =>
        split
        · left; rfl
        next j q hfq =>
          split
          · left; rfl
          next hd =>
            right
            refine ⟨i, qs, j, q, ?_, hft, hfq, ?_, rfl⟩
            · simpa using hc
            · simpa using hd

theorem select_answering_player_cases (g : Game) (pid : Nat) :
    (g.select_answering_player pid).1 = g ∨
    ∃ r q, g.current_question = some r ∧ getQ g.themes_questions r = some q ∧
      (q.answeringPlayer = none ∨ q.answeringPlayer = some pid) ∧
      (g.select_answering_player pid).1 = { g with themes_questions := modQ g.themes_questions r (fun q0 => { q0 with answeringPlayer := some pid }) } := by
  unfold Game.select_answering_player
  split
  · left; rfl
  next r hr =>
    split
    · left; rfl
    next q hq =>
      dsimp only
      split
      next apid hap =>
        split
        · left; rfl
        next hne =>
          right
          have hap2 : apid = pid := by omega
          exact ⟨r, q, hr, hq, Or.inr (by rw [hap, hap2]), rfl⟩
      next hap =>
        right
        exact ⟨r, q, hr, hq, Or.inl hap, rfl⟩

theorem accept_answer_cases (g : Game) :
    g.accept_answer.1 = g ∨
    ∃ r q pid, g.current_question = some r ∧ getQ g.themes_questions r = some q ∧
      q.answeringPlayer = some pid ∧
      g.accept_answer.1 = { g with players := g.players.map (fun p => if p.id = pid then { p with score := p.score + q.score } else p), themes_questions := modQ g.themes_questions r (fun q0 => { q0 with answeringPlayer := none, disabled := true }), current_question := none } := by
  unfold Game.accept_answer
  split
  · left; rfl
  next r hr =>
    split
    · left; rfl
    next q hq =>
      split
      · left; rfl
      next pid hap =>
        right
        exact ⟨r, q, pid, hr, hq, hap, rfl⟩

theorem decline_answer_cases (g : Game) :
    g.decline_answer.1 = g ∨
    ∃ r q pid, g.current_question = some r ∧ getQ g.themes_questions r = some q ∧
      q.answeringPlayer = some pid ∧
      g.decline_answer.1 = { g with players := g.players.map (fun p => if p.id = pid then { p with score := p.score - q.score } else p), themes_questions := modQ g.themes_questions r (fun q0 => { q0 with answeringPlayer := none }) } := by
  unfold Game.decline_answer
  split
  · left; rfl
  next r hr =>
    split
    · left; rfl
    next q hq =>
      split
      · left; rfl
      next pid hap =>
        right
        exact ⟨r, q, pid, hr, hq, hap, rfl⟩

theorem skip_question_cases (g : Game) :
    g.skip_question.1 = g ∨
    ∃ r, g.current_question = some r ∧
      g.skip_question.1 = { g with themes_questions := modQ g.themes_questions r (fun q0 => { q0 with disabled := true }), current_question := none } := by
  unfold Game.skip_question
  split
  · left; rfl
  next r hr =>
    right
    exact ⟨r, hr, rfl⟩

/-!
## The roster invariant

`Inv` is preserved by every transport-valid action that does not remove the
currently answering player.
-/

theorem rosterHas_iff (g : Game) (pid : Nat) :
    rosterHas g pid = true ↔ ∃ p ∈ g.players, p.id = pid := by
  unfold rosterHas
  simp [List.any_eq_true, beq_iff_eq]

theorem apInRoster_of (g : Game)
    (h : ∀ pid, currentAp g = some pid → rosterHas g pid = true) :
    apInRoster g = true := by
  unfold apInRoster
  cases hc : currentAp g with
  | none => rfl
  | some pid => exact h pid hc

theorem apInRoster_elim (g : Game) (h : apInRoster g = true) (pid : Nat)
    (hc : currentAp g = some pid) : rosterHas g pid = true := by
  unfold apInRoster at h
  rw [hc] at h
  exact h

theorem currentAp_none_of_cq_none (g : Game) (h : g.current_question = none) :
    currentAp g = none := by
  unfold currentAp
  rw [h]

theorem currentAp_eq (g : Game) (r : Nat × Nat) (q : Question)
    (hr : g.current_question = some r) (hq : getQ g.themes_questions r = some q) :
    currentAp g = q.answeringPlayer := by
  unfold currentAp
  rw [hr]
  simp [hq]

theorem apInRoster_of_cq_none {g : Game} (h : g.current_question = none) :
    apInRoster g = true := by
  unfold apInRoster
  rw [currentAp_none_of_cq_none g h]

theorem apInRoster_of_ap_none {g : Game} {r : Nat × Nat} {q : Question}
    (hr : g.current_question = some r) (hq : getQ g.themes_questions r = some q)
    (hap : q.answeringPlayer = none) : apInRoster g = true := by
  unfold apInRoster
  rw [currentAp_eq g r q hr hq, hap]

theorem apInRoster_of_mem {g : Game} {r : Nat × Nat} {q : Question} {pid : Nat}
    (hr : g.current_question = some r) (hq : getQ g.themes_questions r = some q)
    (hap : q.answeringPlayer = some pid) (hros : rosterHas g pid = true) :
    apInRoster g = true := by
  unfold apInRoster
  rw [currentAp_eq g r q hr hq, hap]
  exact hros

theorem getQ_of_find (b : Board) (t : String) (s : Int) (i j : Nat)
    (qs : List Question) (q : Question)
    (hft : findTheme b t = some (i, qs)) (hfq : findQuestion qs s = some (j, q)) :
    getQ b (i, j) = some q := by
  unfold getQ
  dsimp only
  rw [findTheme_getElem? b t i qs hft]
  exact (findQuestion_getElem? qs s j q hfq).1

theorem inv_step (g : Game) (op : Op) (hInv : Inv g)
    (hT : transportOk g op = true) (hS : safeLeave g op = true) :
    Inv (applyOp g op) := by
  obtain ⟨hAp, hClean⟩ := hInv
  cases op with
  | join n =>
    refine ⟨apInRoster_of _ ?_, ?_⟩
    · intro pid hc
      have hc0 : currentAp g = some pid := hc
      have hmem := apInRoster_elim g hAp pid hc0
      rw [rosterHas_iff] at hmem ⊢
      obtain ⟨p, hp, hpid⟩ := hmem
      exact ⟨p, List.mem_append_left _ hp, hpid⟩
    · intro r q hget hdis hne
      exact hClean r q hget hdis hne
  | leave pid =>
    have hSafe : currentAp g ≠ some pid := of_decide_eq_true hS
    refine ⟨apInRoster_of _ ?_, ?_⟩
    · intro pid' hc
      have hc0 : currentAp g = some pid' := hc
      have hne : pid' ≠ pid := fun h => hSafe (h ▸ hc0)
      have hmem := apInRoster_elim g hAp pid' hc0
      rw [rosterHas_iff] at hmem ⊢
      obtain ⟨p, hp, hpid⟩ := hmem
      exact ⟨p, mem_removeFirst_of_ne hp (by rw [hpid]; exact hne), hpid⟩
    · intro r q hget hdis hne
      exact hClean r q hget hdis hne
  | selectQuestion t s =>
    rcases select_question_cases g t s with h | ⟨i, qs, j, q, hcn, hft, hfq, hd, hres⟩
    · show Inv ((g.select_question t s).1)
      rw [h]
      exact ⟨hAp, hClean⟩
    · show Inv ((g.select_question t s).1)
      rw [hres]
      have hgetq : getQ g.themes_questions (i, j) = some q := getQ_of_find _ t s i j qs q hft hfq
      have hapq : q.answeringPlayer = none := by
        apply hClean (i, j) q hgetq hd
        rw [hcn]
        exact fun hcontra => Option.noConfusion hcontra
      constructor
      · exact apInRoster_of_ap_none rfl hgetq hapq
      · intro r q0 hget0 hdis0 hne0
        apply hClean r q0 hget0 hdis0
        rw [hcn]
        exact fun hcontra => Option.noConfusion hcontra
  | selectAnsweringPlayer pid =>
    rcases select_answering_player_cases g pid with h | ⟨r, q, hr, hq, _, hres⟩
    · show Inv ((g.select_answering_player pid).1)
      rw [h]
      exact ⟨hAp, hClean⟩
    · show Inv ((g.select_answering_player pid).1)
      rw [hres]
      have hT' : rosterHas g pid = true := hT
      have hget' : getQ (modQ g.themes_questions r (fun q0 => { q0 with answeringPlayer := some pid })) r = some { q with answeringPlayer := some pid } := by
        rw [getQ_modQ_self, hq]
        rfl
      constructor
      · exact apInRoster_of_mem hr hget' rfl hT'
      · intro r' q0 hget0 hdis0 hne0
        have hner : r' ≠ r := by
          intro hrr
          subst hrr
          exact hne0 hr
        rw [getQ_modQ_ne _ _ _ _ hner] at hget0
        apply hClean r' q0 hget0 hdis0
        rw [hr]
        simp only [ne_eq, Option.some.injEq]
        exact fun hcontra => hner hcontra.symm
  | acceptAnswer =>
    rcases accept_answer_cases g with h | ⟨r, q, pid, hr, hq, hap, hres⟩
    · show Inv (g.accept_answer.1)
      rw [h]
      exact ⟨hAp, hClean⟩
    · show Inv (g.accept_answer.1)
      rw [hres]
      constructor
      · exact apInRoster_of_cq_none rfl
      · intro r' q0 hget0 hdis0 hne0
        by_cases hrr : r' = r
        · subst hrr
          rw [getQ_modQ_self, hq] at hget0
          simp only [Option.map_some', Option.some.injEq] at hget0
          rw [← hget0] at hdis0
          simp at hdis0
        · rw [getQ_modQ_ne _ _ _ _ hrr] at hget0
          apply hClean r' q0 hget0 hdis0
          rw [hr]
          simp only [ne_eq, Option.some.injEq]
          exact fun hcontra => hrr hcontra.symm
  | declineAnswer =>
    rcases decline_answer_cases g with h | ⟨r, q, pid, hr, hq, hap, hres⟩
    · show Inv (g.decline_answer.1)
      rw [h]
      exact ⟨hAp, hClean⟩
    · show Inv (g.decline_answer.1)
      rw [hres]
      have hget' : getQ (modQ g.themes_questions r (fun q0 => { q0 with answeringPlayer := none })) r = some { q with answeringPlayer := none } := by
        rw [getQ_modQ_self, hq]
        rfl
      constructor
      · exact apInRoster_of_ap_none hr hget' rfl
      · intro r' q0 hget0 hdis0 hne0
        have hner : r' ≠ r := by
          intro hrr
          subst hrr
          exact hne0 hr
        rw [getQ_modQ_ne _ _ _ _ hner] at hget0
        apply hClean r' q0 hget0 hdis0
        rw [hr]
        simp only [ne_eq, Option.some.injEq]
        exact fun hcontra => hner hcontra.symm
  | skipQuestion =>
    rcases skip_question_cases g with h | ⟨r, hr, hres⟩
    · show Inv (g.skip_question.1)
      rw [h]
      exact ⟨hAp, hClean⟩
    · show Inv (g.skip_question.1)
      rw [hres]
      constructor
      · exact apInRoster_of_cq_none rfl
      · intro r' q0 hget0 hdis0 hne0
        by_cases hrr : r' = r
        · subst hrr
          cases hq : getQ g.themes_questions r' with
          | none =>
            rw [getQ_modQ_self, hq] at hget0
            simp at hget0
          | some qq =>
            rw [getQ_modQ_self, hq] at hget0
            simp only [Option.map_some', Option.some.injEq] at hget0
            rw [← hget0] at hdis0
            simp at hdis0
        · rw [getQ_modQ_ne _ _ _ _ hrr] at hget0
          apply hClean r' q0 hget0 hdis0
          rw [hr]
          simp only [ne_eq, Option.some.injEq]
          exact fun hcontra => hrr hcontra.symm

theorem inv_runTrace (ops : List Op) : ∀ g : Game, Inv g → okTrace g ops = true →
    Inv (runTrace g ops) := by
  induction ops with
  | nil => intro g h _; exact h
  | cons op ops ih =>
    intro g h hok
    simp only [okTrace, Bool.and_eq_true] at hok
    obtain ⟨⟨hT, hS⟩, hrest⟩ := hok
    exact ih _ (inv_step g op h hT hS) hrest

/-!
## Monotonicity of `disabled` and the enabled-current-question invariant
-/

theorem getQ_modQ_disabled (b : Board) (r0 : Nat × Nat) (f : Question → Question)
    (hf : ∀ q0, q0.disabled = true → (f q0).disabled = true)
    (r : Nat × Nat) (q : Question) (hq : getQ b r = some q) (hd : q.disabled = true) :
    ∃ q', getQ (modQ b r0 f) r = some q' ∧ q'.disabled = true := by
  by_cases hrr : r = r0
  · subst hrr
    refine ⟨f q, ?_, hf q hd⟩
    rw [getQ_modQ_self, hq]
    rfl
  · rw [getQ_modQ_ne _ _ _ _ hrr]
    exact ⟨q, hq, hd⟩

theorem disabled_step (g : Game) (op : Op) (r : Nat × Nat) (q : Question)
    (hq : getQ g.themes_questions r = some q) (hd : q.disabled = true) :
    ∃ q', getQ (applyOp g op).themes_questions r = some q' ∧ q'.disabled = true := by
  cases op with
  | join n => exact ⟨q, hq, hd⟩
  | leave pid => exact ⟨q, hq, hd⟩
  | selectQuestion t s =>
    rcases select_question_cases g t s with hcase | ⟨i, qs, j, q1, hcn, hft, hfq, hd1, hres⟩
    · have h2 : applyOp g (Op.selectQuestion t s) = _ := hcase
      rw [h2]
      exact ⟨q, hq, hd⟩
    · have h2 : applyOp g (Op.selectQuestion t s) = _ := hres
      rw [h2]
      exact ⟨q, hq, hd⟩
  | selectAnsweringPlayer pid =>
    rcases select_answering_player_cases g pid with hcase | ⟨r0, q0, hr0, hq0, _, hres⟩
    · have h2 : applyOp g (Op.selectAnsweringPlayer pid) = _ := hcase
      rw [h2]
      exact ⟨q, hq, hd⟩
    · have h2 : applyOp g (Op.selectAnsweringPlayer pid) = _ := hres
      rw [h2]
      exact getQ_modQ_disabled _ r0 (fun q0 => { q0 with answeringPlayer := some pid })
        (fun x hx => hx) r q hq hd
  | acceptAnswer =>
    rcases accept_answer_cases g with hcase | ⟨r0, q0, pid, hr0, hq0, hap0, hres⟩
    · have h2 : applyOp g Op.acceptAnswer = _ := hcase
      rw [h2]
      exact ⟨q, hq, hd⟩
    · have h2 : applyOp g Op.acceptAnswer = _ := hres
      rw [h2]
      exact getQ_modQ_disabled _ r0 (fun q0 => { q0 with answeringPlayer := none, disabled := true })
        (fun x hx => rfl) r q hq hd
  | declineAnswer =>
    rcases decline_answer_cases g with hcase | ⟨r0, q0, pid, hr0, hq0, hap0, hres⟩
    · have h2 : applyOp g Op.declineAnswer = _ := hcase
      rw [h2]
      exact ⟨q, hq, hd⟩
    · have h2 : applyOp g Op.declineAnswer = _ := hres
      rw [h2]
      exact getQ_modQ_disabled _ r0 (fun q0 => { q0 with answeringPlayer := none })
        (fun x hx => hx) r q hq hd
  | skipQuestion =>
    rcases skip_question_cases g with hcase | ⟨r0, hr0, hres⟩
    · have h2 : applyOp g Op.skipQuestion = _ := hcase
      rw [h2]
      exact ⟨q, hq, hd⟩
    · have h2 : applyOp g Op.skipQuestion = _ := hres
      rw [h2]
      exact getQ_modQ_disabled _ r0 (fun q0 => { q0 with disabled := true })
        (fun x hx => rfl) r q hq hd

theorem currentEnabled_of_cq_none {g : Game} (h : g.current_question = none) :
    currentEnabled g = true := by
  unfold currentEnabled
  rw [h]

theorem currentEnabled_elim {g : Game} {r : Nat × Nat} {q : Question}
    (h : currentEnabled g = true) (hr : g.current_question = some r)
    (hq : getQ g.themes_questions r = some q) : q.disabled = false := by
  unfold currentEnabled at h
  rw [hr] at h
  simp [hq] at h
  exact h

theorem currentEnabled_intro_en {g : Game} {r : Nat × Nat} {q : Question}
    (hr : g.current_question = some r) (hq : getQ g.themes_questions r = some q)
    (hd : q.disabled = false) : currentEnabled g = true := by
  unfold currentEnabled
  rw [hr]
  simp [hq, hd]

theorem currentEnabled_step (g : Game) (op : Op) (h : currentEnabled g = true) :
    currentEnabled (applyOp g op) = true := by
  cases op with
  | join n => exact h
  | leave pid => exact h
  | selectQuestion t s =>
    rcases select_question_cases g t s with hcase | ⟨i, qs, j, q, hcn, hft, hfq, hd, hres⟩
    · have h2 : applyOp g (Op.selectQuestion t s) = _ := hcase
      rw [h2]
      exact h
    · have h2 : applyOp g (Op.selectQuestion t s) = _ := hres
      rw [h2]
      exact currentEnabled_intro_en rfl (getQ_of_find _ t s i j qs q hft hfq) hd
  | selectAnsweringPlayer pid =>
    rcases select_answering_player_cases g pid with hcase | ⟨r, q, hr, hq, _, hres⟩
    · have h2 : applyOp g (Op.selectAnsweringPlayer pid) = _ := hcase
      rw [h2]
      exact h
    · have h2 : applyOp g (Op.selectAnsweringPlayer pid) = _ := hres
      rw [h2]
      have hd : q.disabled = false := currentEnabled_elim h hr hq
      refine @currentEnabled_intro_en _ r { q with answeringPlayer := some pid } hr ?_ ?_
      · rw [getQ_modQ_self, hq]
        rfl
      · exact hd
  | acceptAnswer =>
    rcases accept_answer_cases g with hcase | ⟨r, q, pid, hr, hq, hap, hres⟩
    · have h2 : applyOp g Op.acceptAnswer = _ := hcase
      rw [h2]
      exact h
    · have h2 : applyOp g Op.acceptAnswer = _ := hres
      rw [h2]
      exact currentEnabled_of_cq_none rfl
  | declineAnswer =>
    rcases decline_answer_cases g with hcase | ⟨r, q, pid, hr, hq, hap, hres⟩
    · have h2 : applyOp g Op.declineAnswer = _ := hcase
      rw [h2]
      exact h
    · have h2 : applyOp g Op.declineAnswer = _ := hres
      rw [h2]
      have hd : q.disabled = false := currentEnabled_elim h hr hq
      refine @currentEnabled_intro_en _ r { q with answeringPlayer := none } hr ?_ ?_
      · rw [getQ_modQ_self, hq]
        rfl
      · exact hd
  | skipQuestion =>
    rcases skip_question_cases g with hcase | ⟨r, hr, hres⟩
    · have h2 : applyOp g Op.skipQuestion = _ := hcase
      rw [h2]
      exact h
    · have h2 : applyOp g Op.skipQuestion = _ := hres
      rw [h2]
      exact currentEnabled_of_cq_none rfl

theorem disabled_runTrace (ops : List Op) : ∀ (g : Game) (r : Nat × Nat) (q : Question),
    getQ g.themes_questions r = some q → q.disabled = true →
    ∃ q', getQ (runTrace g ops).themes_questions r = some q' ∧ q'.disabled = true := by
  induction ops with
  | nil => intro g r q hq hd; exact ⟨q, hq, hd⟩
  | cons op ops ih =>
    intro g r q hq hd
    obtain ⟨q1, hq1, hd1⟩ := disabled_step g op r q hq hd
    exact ih (applyOp g op) r q1 hq1 hd1

theorem currentEnabled_runTrace (ops : List Op) : ∀ g : Game,
    currentEnabled g = true → currentEnabled (runTrace g ops) = true := by
  induction ops with
  | nil => intro g h; exact h
  | cons op ops ih => intro g h; exact ih _ (currentEnabled_step g op h)

/-- Player 0 has answered correctly: the 100-point question is disabled. -/
def gAcc : Game := applyOp gAp Op.acceptAnswer

theorem question_set_ap_eq (q : Question) (a : Option Nat)
    (h : q.answeringPlayer = a) : { q with answeringPlayer := a } = q := by
  subst h
  rfl

/-!
## The claims
-/

/-- C2: with a current question and an answering player set, `decline_answer`
succeeds, decreases exactly the answering player's score by the question's
score, clears the question's `answeringPlayer`, leaves `disabled` false
(unchanged), and leaves `current_question` still referencing the same
question (not null). -/
theorem c2_decline_answer_effect (g : Game) (r : Nat × Nat) (q : Question) (pid : Nat)
    (hr : g.current_question = some r)
    (hq : getQ g.themes_questions r = some q)
    (hap : q.answeringPlayer = some pid)
    (hd : q.disabled = false) :
    (g.decline_answer).2 = none ∧
    (∀ k : Nat, ((g.decline_answer).1).players[k]? =
      (g.players[k]?).map (fun p => if p.id = pid then { p with score := p.score - q.score } else p)) ∧
    getQ ((g.decline_answer).1).themes_questions r = some { q with answeringPlayer := none } ∧
    ({ q with answeringPlayer := none } : Question).disabled = false ∧
    ((g.decline_answer).1).current_question = some r := by
  have hkey : g.decline_answer = ({ g with players := g.players.map (fun p => if p.id = pid then { p with score := p.score - q.score } else p), themes_questions := modQ g.themes_questions r (fun q0 => { q0 with answeringPlayer := none }) }, none) := by
    simp only [Game.decline_answer, hr, hq, hap]
  rw [hkey]
  refine ⟨rfl, ?_, ?_, hd, hr⟩
  · intro k
    exact List.getElem?_map _ _ _
  · rw [getQ_modQ_self, hq]
    rfl

/-- Witness for C2 on the concrete game `gAp`. -/
theorem c2_decline_answer_effect_witness :
    (gAp.decline_answer).2 = none ∧
    ((gAp.decline_answer).1).players[0]? = some { id := 0, name := "alice", score := -100 } ∧
    ((gAp.decline_answer).1).current_question = some (0, 0) := by
  obtain ⟨h1, h2, h3, h4, h5⟩ := c2_decline_answer_effect gAp (0, 0)
    { q100 with answeringPlayer := some 0 } 0 (by decide) (by decide) (by decide) (by decide)
  refine ⟨h1, ?_, h5⟩
  rw [h2 0]
  decide

/-- C3: with a current question and an answering player set, `accept_answer`
succeeds, increases exactly the answering player's score by the question's
score, clears the question's `answeringPlayer`, sets `disabled := true`, and
clears `current_question` to null. -/
theorem c3_accept_answer_effect (g : Game) (r : Nat × Nat) (q : Question) (pid : Nat)
    (hr : g.current_question = some r)
    (hq : getQ g.themes_questions r = some q)
    (hap : q.answeringPlayer = some pid) :
    (g.accept_answer).2 = none ∧
    (∀ k : Nat, ((g.accept_answer).1).players[k]? =
      (g.players[k]?).map (fun p => if p.id = pid then { p with score := p.score + q.score } else p)) ∧
    getQ ((g.accept_answer).1).themes_questions r = some { q with answeringPlayer := none, disabled := true } ∧
    ((g.accept_answer).1).current_question = none := by
  have hkey : g.accept_answer = ({ g with players := g.players.map (fun p => if p.id = pid then { p with score := p.score + q.score } else p), themes_questions := modQ g.themes_questions r (fun q0 => { q0 with answeringPlayer := none, disabled := true }), current_question := none }, none) := by
    simp only [Game.accept_answer, hr, hq, hap]
  rw [hkey]
  refine ⟨rfl, ?_, ?_, rfl⟩
  · intro k
    exact List.getElem?_map _ _ _
  · rw [getQ_modQ_self, hq]
    rfl

/-- Witness for C3 on the concrete game `gAp`. -/
theorem c3_accept_answer_effect_witness :
    (gAp.accept_answer).2 = none ∧
    ((gAp.accept_answer).1).players[0]? = some { id := 0, name := "alice", score := 100 } ∧
    ((gAp.accept_answer).1).current_question = none := by
  obtain ⟨h1, h2, h3, h4⟩ := c3_accept_answer_effect gAp (0, 0)
    { q100 with answeringPlayer := some 0 } 0 (by decide) (by decide) (by decide)
  refine ⟨h1, ?_, h4⟩
  rw [h2 0]
  decide

/-- C7: buzz arbitration.  Re-selecting the player who is already set is
idempotent (no error, no state change); selecting a different player while
one is set fails with `PlayerIsAlreadySelected` carrying the attempted
player; when none is set the call sets `answeringPlayer`. -/
theorem c7_select_answering_player_arbitration (g : Game) (r : Nat × Nat) (q : Question)
    (hr : g.current_question = some r)
    (hq : getQ g.themes_questions r = some q) :
    (∀ pid, q.answeringPlayer = some pid → g.select_answering_player pid = (g, none)) ∧
    (∀ pid pid', q.answeringPlayer = some pid → pid' ≠ pid →
      g.select_answering_player pid' = (g, some (GErr.PlayerIsAlreadySelected pid'))) ∧
    (∀ pid, q.answeringPlayer = none →
      ((g.select_answering_player pid).2 = none ∧
       getQ ((g.select_answering_player pid).1).themes_questions r = some { q with answeringPlayer := some pid } ∧
       ((g.select_answering_player pid).1).players = g.players ∧
       ((g.select_answering_player pid).1).current_question = some r)) := by
  refine ⟨?_, ?_, ?_⟩
  · intro pid hap
    have hmod : modQ g.themes_questions r (fun q0 => { q0 with answeringPlayer := some pid }) = g.themes_questions := by
      apply modQ_eq_self
      intro q1 hq1
      rw [hq] at hq1
      have hqq : q = q1 := Option.some.inj hq1
      rw [← hqq]
      exact question_set_ap_eq q (some pid) hap
    have hkey : g.select_answering_player pid = ({ g with themes_questions := modQ g.themes_questions r (fun q0 => { q0 with answeringPlayer := some pid }) }, none) := by
      simp [Game.select_answering_player, hr, hq, hap]
    rw [hkey, hmod]
  · intro pid pid' hap hne
    have h1 : pid ≠ pid' := Ne.symm hne
    simp [Game.select_answering_player, hr, hq, hap, h1]
  · intro pid hap
    have hkey : g.select_answering_player pid = ({ g with themes_questions := modQ g.themes_questions r (fun q0 => { q0 with answeringPlayer := some pid }) }, none) := by
      simp [Game.select_answering_player, hr, hq, hap]
    rw [hkey]
    refine ⟨rfl, ?_, rfl, hr⟩
    rw [getQ_modQ_self, hq]
    rfl

/-- Witness for C7 on the concrete game `gAp` (player 0 already selected). -/
theorem c7_select_answering_player_arbitration_witness :
    gAp.select_answering_player 0 = (gAp, none) ∧
    gAp.select_answering_player 1 = (gAp, some (GErr.PlayerIsAlreadySelected 1)) := by
  have h := c7_select_answering_player_arbitration gAp (0, 0)
    { q100 with answeringPlayer := some 0 } (by decide) (by decide)
  exact ⟨h.1 0 (by decide), h.2.1 0 1 (by decide) (by decide)⟩

/-- C8: `join` creates a new player with score 0, appends it at the end of
`players` and returns it; `leave` of the returned player restores the
players sequence exactly (order of the remaining players preserved).  The
freshness hypothesis states that the new object is distinct from every
roster member, which Python guarantees by construction. -/
theorem c8_join_leave_inverse (g : Game) (player_name : String)
    (hfresh : ∀ p ∈ g.players, p.id ≠ g.nextId) :
    ((g.join player_name).2).name = player_name ∧
    ((g.join player_name).2).score = 0 ∧
    ((g.join player_name).1).players = g.players ++ [(g.join player_name).2] ∧
    (((g.join player_name).1).leave ((g.join player_name).2).id).players = g.players := by
  refine ⟨rfl, rfl, rfl, ?_⟩
  exact removeFirst_append_fresh g.players ((g.join player_name).2) (fun x hx => hfresh x hx)

/-- Witness for C8 on the concrete game `gJ`. -/
theorem c8_join_leave_inverse_witness :
    (((gJ.join "bob").1).leave ((gJ.join "bob").2).id).players = gJ.players :=
  (c8_join_leave_inverse gJ "bob" (by decide)).2.2.2

/-- C10: `skip_question` disables the question and clears
`current_question`, but does not clear the question's `answeringPlayer`
(unlike accept/decline) and changes no player's score. -/
theorem c10_skip_keeps_answering_player (g : Game) (r : Nat × Nat) (q : Question) (pid : Nat)
    (hr : g.current_question = some r)
    (hq : getQ g.themes_questions r = some q)
    (hap : q.answeringPlayer = some pid) :
    (g.skip_question).2 = none ∧
    ((g.skip_question).1).current_question = none ∧
    getQ ((g.skip_question).1).themes_questions r = some { q with disabled := true } ∧
    ({ q with disabled := true } : Question).answeringPlayer = some pid ∧
    ((g.skip_question).1).players = g.players := by
  have hkey : g.skip_question = ({ g with themes_questions := modQ g.themes_questions r (fun q0 => { q0 with disabled := true }), current_question := none }, none) := by
    simp only [Game.skip_question, hr]
  rw [hkey]
  refine ⟨rfl, rfl, ?_, hap, rfl⟩
  rw [getQ_modQ_self, hq]
  rfl

/-- Witness for C10 on the concrete game `gAp`. -/
theorem c10_skip_keeps_answering_player_witness :
    (gAp.skip_question).2 = none ∧
    ((gAp.skip_question).1).current_question = none ∧
    getQ ((gAp.skip_question).1).themes_questions (0, 0) =
      some { { q100 with answeringPlayer := some 0 } with disabled := true } ∧
    ({ { q100 with answeringPlayer := some 0 } with disabled := true } : Question).answeringPlayer = some 0 ∧
    ((gAp.skip_question).1).players = gAp.players :=
  c10_skip_keeps_answering_player gAp (0, 0) { q100 with answeringPlayer := some 0 } 0
    (by decide) (by decide) (by decide)

/-- C4: `select_question` checks its preconditions in order.  A non-null
`current_question` dominates everything; an absent theme, or one whose
question list is empty, yields `ThemeNotFound`; otherwise the first question
whose score matches decides the outcome (`QuestionDisabled` if disabled,
success if enabled), and `QuestionNotFound` when no score matches. -/
theorem c4_select_question_error_order (g : Game) (theme : String) (score : Int) :
    (g.current_question ≠ none →
      g.select_question theme score = (g, some GErr.QuestionIsAlreadySelected)) ∧
    (g.current_question = none → (∀ tq ∈ g.themes_questions, tq.1 ≠ theme) →
      g.select_question theme score = (g, some (GErr.ThemeNotFound theme))) ∧
    (g.current_question = none →
      ∀ i qs, findTheme g.themes_questions theme = some (i, qs) → qs = [] →
      g.select_question theme score = (g, some (GErr.ThemeNotFound theme))) ∧
    (g.current_question = none →
      ∀ i qs j q, findTheme g.themes_questions theme = some (i, qs) →
      qs[j]? = some q → q.score = score →
      (∀ (k : Nat) (qk : Question), k < j → qs[k]? = some qk → qk.score ≠ score) →
      ((q.disabled = true →
          g.select_question theme score = (g, some (GErr.QuestionDisabled q))) ∧
       (q.disabled = false →
          g.select_question theme score = ({ g with current_question := some (i, j) }, none)))) ∧
    (g.current_question = none →
      ∀ i qs, findTheme g.themes_questions theme = some (i, qs) → qs ≠ [] →
      (∀ (k : Nat) (qk : Question), qs[k]? = some qk → qk.score ≠ score) →
      g.select_question theme score = (g, some (GErr.QuestionNotFound theme score))) := by
  refine ⟨?_, ?_, ?_, ?_, ?_⟩
  · intro hc
    have hs : g.current_question.isSome = true := Option.isSome_iff_ne_none.mpr hc
    simp [Game.select_question, hs]
  · intro hc habs
    have hft : findTheme g.themes_questions theme = none := findTheme_eq_none _ _ habs
    simp [Game.select_question, hc, hft]
  · intro hc i qs hft hemp
    subst hemp
    simp [Game.select_question, hc, hft]
  · intro hc i qs j q hft hj hsc hfirst
    have hfq : findQuestion qs score = some (j, q) := findQuestion_eq_some qs score j q hj hsc hfirst
    have hne : qs ≠ [] := by
      intro h
      subst h
      simp at hj
    have hemp : qs.isEmpty = false := by
      cases qs with
      | nil => exact absurd rfl hne
      | cons a l => rfl
    constructor
    · intro hd
      simp [Game.select_question, hc, hft, hemp, hfq, hd]
    · intro hd
      simp [Game.select_question, hc, hft, hemp, hfq, hd]
  · intro hc i qs hft hne hforall
    have hfq : findQuestion qs score = none := findQuestion_eq_none qs score hforall
    have hemp : qs.isEmpty = false := by
      cases qs with
      | nil => exact absurd rfl hne
      | cons a l => rfl
    simp [Game.select_question, hc, hft, hemp, hfq]

/-- Witness for C4: selecting the enabled 100-point question of theme `T`
in the fresh fixture game succeeds and focuses that question. -/
theorem c4_select_question_error_order_witness :
    g0.select_question "T" 100 = ({ g0 with current_question := some (0, 0) }, none) :=
  ((c4_select_question_error_order g0 "T" 100).2.2.2.1 (by decide) 0 [q100, q200] 0 q100
    (by decide) (by decide) (by decide)
    (fun k qk hk _ => absurd hk (Nat.not_lt_zero k))).2 (by decide)

/-- C5: every failing call leaves the whole game state exactly unchanged
(no partial mutation): whenever one of the five state-machine operations
reports a condition, the state it returns is the state it was given. -/
theorem c5_no_partial_mutation (g : Game) :
    (∀ (theme : String) (score : Int) (gf : Game) (e : GErr),
      g.select_question theme score = (gf, some e) → gf = g) ∧
    (∀ (pid : Nat) (gf : Game) (e : GErr),
      g.select_answering_player pid = (gf, some e) → gf = g) ∧
    (∀ (gf : Game) (e : GErr), g.accept_answer = (gf, some e) → gf = g) ∧
    (∀ (gf : Game) (e : GErr), g.decline_answer = (gf, some e) → gf = g) ∧
    (∀ (gf : Game) (e : GErr), g.skip_question = (gf, some e) → gf = g) := by
  refine ⟨?_, ?_, ?_, ?_, ?_⟩
  · intro t s gf e h
    unfold Game.select_question at h
    repeat' split at h
    all_goals injection h with h1 h2
    all_goals try exact h1.symm
    all_goals exact Option.noConfusion h2
  · intro pid gf e h
    unfold Game.select_answering_player at h
    repeat' split at h
    all_goals injection h with h1 h2
    all_goals try exact h1.symm
    all_goals exact Option.noConfusion h2
  · intro gf e h
    unfold Game.accept_answer at h
    repeat' split at h
    all_goals injection h with h1 h2
    all_goals try exact h1.symm
    all_goals exact Option.noConfusion h2
  · intro gf e h
    unfold Game.decline_answer at h
    repeat' split at h
    all_goals injection h with h1 h2
    all_goals try exact h1.symm
    all_goals exact Option.noConfusion h2
  · intro gf e h
    unfold Game.skip_question at h
    repeat' split at h
    all_goals injection h with h1 h2
    all_goals try exact h1.symm
    all_goals exact Option.noConfusion h2

/-- Witness for C5: a failing `select_question` on `gSel` (a question is
already selected) returns the state unchanged. -/
theorem c5_no_partial_mutation_witness :
    (gSel.select_question "T" 200).1 = gSel :=
  (c5_no_partial_mutation gSel).1 "T" 200 (gSel.select_question "T" 200).1
    GErr.QuestionIsAlreadySelected (by decide)

/-- C6: `is_over` is true iff every question of every theme is disabled;
in particular any game with at least one enabled question is not over. -/
theorem c6_is_over_iff (g : Game) :
    (g.is_over = true ↔ ∀ tq ∈ g.themes_questions, ∀ q ∈ tq.2, q.disabled = true) ∧
    (∀ tq ∈ g.themes_questions, ∀ q ∈ tq.2, q.disabled = false → g.is_over = false) := by
  have hiff : g.is_over = true ↔ ∀ tq ∈ g.themes_questions, ∀ q ∈ tq.2, q.disabled = true := by
    unfold Game.is_over
    simp [List.all_eq_true]
  refine ⟨hiff, ?_⟩
  intro tq htq q hq hdis
  cases hov : g.is_over with
  | false => rfl
  | true =>
    have hd := hiff.mp hov tq htq q hq
    rw [hdis] at hd
    exact Bool.noConfusion hd

/-- Witness for C6: the fresh fixture game is not over. -/
theorem c6_is_over_iff_witness : g0.is_over = false :=
  (c6_is_over_iff g0).2 ("T", [q100, q200]) (by decide) q100 (by decide) (by decide)

/-- A transport-valid trace that makes the answering player leave while
selected: join, select the 100-point question, buzz, leave. -/
def trace0 : List Op :=
  [Op.join "alice", Op.selectQuestion "T" 100, Op.selectAnsweringPlayer 0, Op.leave 0]

/-- C1 counterexample: the claimed invariant fails as stated.  The trace
`trace0` satisfies every transport-layer membership guard, yet it ends in a
reachable state whose current question still names player 0 as
`answeringPlayer` while the roster is empty — `leave` does not clear the
reference. -/
theorem c1_counterexample_leave_dangles :
    transportTrace (Game.fresh board0) trace0 = true ∧
    currentAp (runTrace (Game.fresh board0) trace0) = some 0 ∧
    (runTrace (Game.fresh board0) trace0).players = [] ∧
    apInRoster (runTrace (Game.fresh board0) trace0) = false := by
  decide

/-- C1 (amended): in every state reachable from a fresh game by
transport-valid calls in which `leave` is never invoked on the player
currently set as the current question's answering player, the invariant
holds: `currentQuestion.answeringPlayer` is null or a current roster
member. -/
theorem c1_roster_invariant_amended (b : Board)
    (hclean : ∀ tq ∈ b, ∀ q ∈ tq.2, q.answeringPlayer = none)
    (ops : List Op) (hok : okTrace (Game.fresh b) ops = true) :
    apInRoster (runTrace (Game.fresh b) ops) = true := by
  have hInv : Inv (Game.fresh b) := by
    constructor
    · exact apInRoster_of_cq_none rfl
    · intro r q hget hdis hne
      unfold getQ at hget
      rw [show (Game.fresh b).themes_questions = b from rfl] at hget
      cases hb : b[r.1]? with
      | none =>
        rw [hb] at hget
        exact Option.noConfusion hget
      | some tq =>
        rw [hb] at hget
        simp only [] at hget
        exact hclean tq (List.getElem?_mem hb) q (List.getElem?_mem hget)
  exact (inv_runTrace ops (Game.fresh b) hInv hok).1

/-- Witness for the amended C1 on the fixture board and a safe trace. -/
theorem c1_roster_invariant_amended_witness :
    apInRoster (runTrace (Game.fresh board0)
      [Op.join "alice", Op.selectQuestion "T" 100, Op.selectAnsweringPlayer 0]) = true :=
  c1_roster_invariant_amended board0 (by decide)
    [Op.join "alice", Op.selectQuestion "T" 100, Op.selectAnsweringPlayer 0] (by decide)

/-- C9: the `disabled` flag is one-way.  Along any sequence of operations,
a question that is disabled stays disabled (first conjunct), and the
current-question focus never rests on a disabled question, so a disabled
question is never re-selectable (second conjunct). -/
theorem c9_disabled_monotone (g : Game) (ops : List Op) :
    (∀ (r : Nat × Nat) (q q' : Question),
      getQ g.themes_questions r = some q → q.disabled = true →
      getQ (runTrace g ops).themes_questions r = some q' → q'.disabled = true) ∧
    (currentEnabled g = true → currentEnabled (runTrace g ops) = true) := by
  constructor
  · intro r q q' hq hd hq'
    obtain ⟨q2, hq2, hd2⟩ := disabled_runTrace ops g r q hq hd
    rw [hq'] at hq2
    have h := Option.some.inj hq2
    rw [← h] at hd2
    exact hd2
  · exact currentEnabled_runTrace ops g

/-- Witness for C9: after an accepted answer the 100-point question is
disabled and stays disabled across a further (failing) selection attempt,
and the current-question focus stays on enabled questions. -/
theorem c9_disabled_monotone_witness :
    ({ q100 with answeringPlayer := none, disabled := true } : Question).disabled = true ∧
    currentEnabled (runTrace gAcc [Op.selectQuestion "T" 100]) = true := by
  constructor
  · exact (c9_disabled_monotone gAcc [Op.selectQuestion "T" 100]).1 (0, 0)
      { q100 with answeringPlayer := none, disabled := true }
      { q100 with answeringPlayer := none, disabled := true }
      (by decide) (by decide) (by decide)
  · exact (c9_disabled_monotone gAcc [Op.selectQuestion "T" 100]).2 (by decide)

end OwnGame
